import Mathlib

/-!
Verification of the process lifecycle supervisor in `main.py` of the
camera-viewer service (FastAPI + ffmpeg HLS supervisor).

The embedding models the module-level state of `main.py`:
  * `ffmpeg_processes` — the dict mapping camera id to its subprocess handle —
    is modelled as an association list `reg : List (Nat × Nat)` from camera id
    to a process id.  Python dict assignment updates in place (keeping
    insertion order) or appends; `regSet` mirrors that.
  * the OS process table is modelled as `procs : List Proc`: each spawned
    subprocess is appended, its pid is its index, and `alive` models
    `poll() is None`.
  * the per-camera HLS output directories are modelled as `fs`, an association
    list from camera id to directory contents (filename, mtime pairs).
Times (mtimes, `time.time()`) are integers.
-/

namespace CameraViewer

/-- One OS subprocess: which camera launched it, and whether `poll()` still
returns `None` (process not yet exited). -/
structure Proc where
  owner : Nat
  alive : Bool
deriving DecidableEq, Repr

/-- Contents of one camera's HLS output directory: (filename, mtime) pairs. -/
abbrev FeedDir := List (String × Int)

/-- The module-level mutable state of `main.py`: the process table, the
`ffmpeg_processes` registry, and the HLS output directories. -/
structure SupState where
  procs : List Proc
  reg : List (Nat × Nat)
  fs : List (Nat × FeedDir)
deriving DecidableEq, Repr

/-- `STALE_THRESHOLD_SECONDS = 30` (main.py line 18). -/
def STALE_THRESHOLD_SECONDS : Int := 30

/-- Association-list lookup, mirroring Python dict indexing / `.get`. -/
def alistGet {β : Type} : List (Nat × β) → Nat → Option β
  | [], _ => none
  | (c, b) :: rest, k => if c = k then some b else alistGet rest k

/-- Python dict assignment `d[k] = v`: replace the entry in place if the key
is present (Python dicts keep insertion order on update), append otherwise. -/
def regSet : List (Nat × Nat) → Nat → Nat → List (Nat × Nat)
  | [], k, v => [(k, v)]
  | (c, b) :: rest, k, v =>
    if c = k then (k, v) :: rest else (c, b) :: regSet rest k v

/-- Mark the process with the given pid as exited (`kill()` + `wait()` leaves
it dead); every other entry of the process table is untouched. -/
def setDead : List Proc → Nat → List Proc
  | [], _ => []
  | p :: ps, 0 => { p with alive := false } :: ps
  | p :: ps, n + 1 => p :: setDead ps n

/-- `poll() is None` for the handle with the given pid: true iff the process
exists in the table and has not exited. -/
def pollLive (s : SupState) (pid : Nat) : Bool :=
  match s.procs.get? pid with
  | some p => p.alive
  | none => false

/-- Lines 27-30 of `start_ffmpeg_process`: if the registry holds a handle for
`cam` whose `poll()` is `None`, `kill()` it and `wait()`; afterwards that
process is exited.  Otherwise nothing happens. -/
def killPrior (cam : Nat) (s : SupState) : SupState :=
  match alistGet s.reg cam with
  | some pid => if pollLive s pid then { s with procs := setDead s.procs pid } else s
  | none => s

/-- `start_ffmpeg_process(cam_id)` (main.py lines 26-51): if the registry holds
a handle for `cam` whose `poll()` is `None`, `kill()` it and `wait()` for it
(the handle ends up exited); then spawn a fresh subprocess (a new pid,
appended to the process table, alive) and install it in the registry.  The
function never touches the HLS directories (the `os.makedirs` call is
commented out in the source, and nothing removes files). -/
def start_ffmpeg_process (cam : Nat) (s : SupState) : SupState :=
  let s1 := killPrior cam s
  let newPid := s1.procs.length
  { s1 with procs := s1.procs ++ [⟨cam, true⟩], reg := regSet s1.reg cam newPid }

/-- mtime of a named file in a directory listing, `none` if absent. -/
def fileMtime : FeedDir → String → Option Int
  | [], _ => none
  | (f, t) :: rest, name => if f = name then some t else fileMtime rest name

/-- mtime of `hls/cam{cam}/stream.m3u8`, or `none` when the playlist (or the
whole directory) does not exist (main.py lines 59, 62-63). -/
def playlistMtime (s : SupState) (cam : Nat) : Option Int :=
  match alistGet s.fs cam with
  | some d => fileMtime d "stream.m3u8"
  | none => none

/-- The staleness test of the monitor (main.py lines 61-65): the playlist file
exists and `time.time() - mtime > STALE_THRESHOLD_SECONDS`. -/
def isStale (s : SupState) (now : Int) (cam : Nat) : Bool :=
  match playlistMtime s cam with
  | some mtime => decide (now - mtime > STALE_THRESHOLD_SECONDS)
  | none => false

/-- `process and process.poll() is not None` (main.py line 67): the registry
holds a handle for `cam` and that handle has exited. -/
def procDied (s : SupState) (cam : Nat) : Bool :=
  match alistGet s.reg cam with
  | some pid => !(pollLive s pid)
  | none => false

/-- The restart condition of one monitor iteration for one camera
(main.py line 67): the handle died, or the output is stale. -/
def monitorCheck (s : SupState) (now : Int) (cam : Nat) : Bool :=
  procDied s cam || isStale s now cam

/-- One tick of `monitor_ffmpeg_processes` over the given list of camera ids
(main.py lines 57-72), also returning the log of cameras for which
`start_ffmpeg_process` was invoked this tick, in order. -/
def monitorTickAux (now : Int) : List Nat → SupState → SupState × List Nat
  | [], s => (s, [])
  | cam :: rest, s =>
    if monitorCheck s now cam then
      let res := monitorTickAux now rest (start_ffmpeg_process cam s)
      (res.1, cam :: res.2)
    else
      monitorTickAux now rest s

/-- `range(1, settings.TOTAL_CAMERAS + 1)`: the camera ids `1..n`. -/
def camsList (n : Nat) : List Nat := (List.range n).map (· + 1)

/-- One full tick of the monitor loop body for cameras `1..n` at time `now`. -/
def monitorTick (now : Int) (n : Nat) (s : SupState) : SupState × List Nat :=
  monitorTickAux now (camsList n) s

/-- `check_ffmpeg` (main.py lines 20-24): raise `RuntimeError("FFmpeg not
found")` when `shutil.which("ffmpeg")` finds nothing, return normally
otherwise. -/
def check_ffmpeg (ffmpegPresent : Bool) : Except String Unit :=
  if ffmpegPresent then Except.ok () else Except.error "FFmpeg not found"

/-- `startup_event` step 1 (main.py lines 80-82): `shutil.rmtree(HLS_BASE_DIR)`
removes every previously existing file, then `os.makedirs` recreates an empty
directory per camera; whatever was on disk before (`fs0`) is discarded. -/
def resetDirs (n : Nat) : List (Nat × FeedDir) :=
  (List.range n).map (fun i => (i + 1, []))

/-- The startup launch loop (main.py lines 89-90). -/
def launchAll : List Nat → SupState → SupState
  | [], s => s
  | cam :: rest, s => launchAll rest (start_ffmpeg_process cam s)

/-- `startup_event` (main.py lines 74-95): `check_ffmpeg()` first — its
`RuntimeError` propagates and the application refuses to start; otherwise
reset the HLS tree, then launch every camera.  `fs0` is the on-disk state
before startup; `shutil.rmtree` discards it. -/
def startup_event (ffmpegPresent : Bool) (n : Nat) (fs0 : List (Nat × FeedDir)) :
    Except String SupState :=
  match check_ffmpeg ffmpegPresent with
  | Except.error e => Except.error e
  | Except.ok _ =>
      Except.ok (launchAll (camsList n) { procs := [], reg := [], fs := resetDirs n })

/-- The JSON body of `GET /health` (main.py lines 103-106). -/
structure HealthResponse where
  status : String
  total_streams : Nat
  active_streams : Nat
deriving DecidableEq, Repr

/-- `health_check` (main.py lines 103-106): `active_streams` is the number of
registry entries whose handle's `poll()` is `None`. -/
def health_check (s : SupState) (n : Nat) : HealthResponse :=
  { status := "ok"
    total_streams := n
    active_streams := (s.reg.filter (fun e => pollLive s e.2)).length }

/-- The pids stored in the registry. -/
def pidsOf (reg : List (Nat × Nat)) : List Nat := reg.map Prod.snd

/-- The camera ids stored in the registry. -/
def keysOf (reg : List (Nat × Nat)) : List Nat := reg.map Prod.fst

/-- Basic well-formedness of the registry: the registered pids are pairwise
distinct and all denote entries of the process table.  It holds in every
reachable state: pids are handed out fresh. -/
def wfB (s : SupState) : Bool :=
  decide (pidsOf s.reg).Nodup && s.reg.all (fun e => decide (e.2 < s.procs.length))

/-- Registry/process-table coherence: every live process is the one its
camera's registry entry points to.  It holds in every reachable state and
implies that at most one live process exists per camera. -/
def cohB (s : SupState) : Bool :=
  (List.range s.procs.length).all (fun pid =>
    match s.procs.get? pid with
    | some p => !p.alive || decide (alistGet s.reg p.owner = some pid)
    | none => true)

/-- Registry/process-table coherence, as a proposition: every live process is
the one its camera's registry entry points to. -/
def Coh (s : SupState) : Prop :=
  ∀ pid p, s.procs.get? pid = some p → p.alive = true →
    alistGet s.reg p.owner = some pid

/-- The pids of the simultaneously live subprocesses spawned for camera
`cam`. -/
def livePids (s : SupState) (cam : Nat) : List Nat :=
  (List.range s.procs.length).filter (fun pid =>
    match s.procs.get? pid with
    | some p => p.owner == cam && p.alive
    | none => false)

/-- Number of simultaneously live subprocesses spawned for camera `cam`. -/
def liveCount (s : SupState) (cam : Nat) : Nat :=
  (livePids s cam).length

/-- Keys well-formedness relative to the configured camera count: camera ids
in the registry are pairwise distinct and lie in `1..n` (the registry is only
ever written at `start_ffmpeg_process(i)` for `i` in `range(1, n+1)`). -/
def keysWfB (s : SupState) (n : Nat) : Bool :=
  decide (keysOf s.reg).Nodup && s.reg.all (fun e => decide (1 ≤ e.1 ∧ e.1 ≤ n))

/-- Blocking behaviour of `ffmpeg_processes[cam_id].wait()` at main.py
line 30: `Popen.wait()` is called with no timeout, so if the killed process
takes `t` time units to fully exit the call blocks for `t` units, and if the
process never exits (`dieTime = none`) the call never returns.  There is no
grace period, escalation, or timeout in the source. -/
def killWaitBlocking (dieTime : Option Nat) : Option Nat := dieTime

/-- `start_ffmpeg_process` with the possibility that `subprocess.Popen`
raises (main.py line 49): the kill/wait of the old handle has already
happened, and the exception propagates to the caller before the registry is
updated (line 50 is not reached).  `spawnOk cam` says whether spawning for
`cam` succeeds. -/
def startFfmpegProcessE (spawnOk : Nat → Bool) (cam : Nat) (s : SupState) :
    Except String SupState :=
  let s1 := killPrior cam s
  if spawnOk cam then
    let newPid := s1.procs.length
    Except.ok { s1 with procs := s1.procs ++ [⟨cam, true⟩], reg := regSet s1.reg cam newPid }
  else
    Except.error "Popen raised"

/-- One tick of `monitor_ffmpeg_processes` when `Popen` may raise: the loop
body (main.py lines 57-72) has no try/except, so the first exception
propagates out of `monitor_ffmpeg_processes`, the remaining cameras of the
tick are not checked, and the monitor thread terminates. -/
def monitorTickAuxE (spawnOk : Nat → Bool) (now : Int) :
    List Nat → SupState → Except String SupState
  | [], s => Except.ok s
  | cam :: rest, s =>
    if monitorCheck s now cam then
      match startFfmpegProcessE spawnOk cam s with
      | Except.error e => Except.error e
      | Except.ok s' => monitorTickAuxE spawnOk now rest s'
    else
      monitorTickAuxE spawnOk now rest s

/-- One full tick with spawn failures, for cameras `1..n`. -/
def monitorTickE (spawnOk : Nat → Bool) (now : Int) (n : Nat) (s : SupState) :
    Except String SupState :=
  monitorTickAuxE spawnOk now (camsList n) s

/-! ### Lemmas about the registry association list -/

theorem alistGet_regSet_self (reg : List (Nat × Nat)) (k v : Nat) :
    alistGet (regSet reg k v) k = some v := by
  induction reg with
  | nil => simp [regSet, alistGet]
  | cons e rest ih =>
    obtain ⟨c, b⟩ := e
    by_cases h : c = k
    · simp [regSet, h, alistGet]
    · simp [regSet, h, alistGet, ih]

theorem alistGet_regSet_ne (reg : List (Nat × Nat)) (k v j : Nat) (h : j ≠ k) :
    alistGet (regSet reg k v) j = alistGet reg j := by
  induction reg with
  | nil => simp [regSet, alistGet, Ne.symm h]
  | cons e rest ih =>
    obtain ⟨c, b⟩ := e
    by_cases hc : c = k
    · subst hc
      simp [regSet, alistGet, Ne.symm h]
    · simp [regSet, hc, alistGet, ih]

theorem mem_of_alistGet {β : Type} (reg : List (Nat × β)) (k : Nat) (v : β)
    (h : alistGet reg k = some v) : (k, v) ∈ reg := by
  induction reg with
  | nil => simp [alistGet] at h
  | cons e rest ih =>
    obtain ⟨c, b⟩ := e
    by_cases hc : c = k
    · subst hc
      simp [alistGet] at h
      subst h
      exact List.mem_cons_self _ _
    · simp [alistGet, hc] at h
      exact List.mem_cons_of_mem _ (ih h)

theorem pidsOf_cons (c b : Nat) (rest : List (Nat × Nat)) :
    pidsOf ((c, b) :: rest) = b :: pidsOf rest := rfl

theorem keysOf_cons (c b : Nat) (rest : List (Nat × Nat)) :
    keysOf ((c, b) :: rest) = c :: keysOf rest := rfl

theorem pid_mem_regSet (reg : List (Nat × Nat)) (k v x : Nat)
    (h : x ∈ pidsOf (regSet reg k v)) : x = v ∨ x ∈ pidsOf reg := by
  induction reg with
  | nil =>
    simp [regSet, pidsOf] at h
    exact Or.inl h
  | cons e rest ih =>
    obtain ⟨c, b⟩ := e
    by_cases hc : c = k
    · rw [regSet, if_pos hc, pidsOf_cons] at h
      rw [pidsOf_cons]
      rcases List.mem_cons.mp h with h | h
      · exact Or.inl h
      · exact Or.inr (List.mem_cons_of_mem _ h)
    · rw [regSet, if_neg hc, pidsOf_cons] at h
      rw [pidsOf_cons]
      rcases List.mem_cons.mp h with h | h
      · exact Or.inr (h ▸ List.mem_cons_self _ _)
      · rcases ih h with h' | h'
        · exact Or.inl h'
        · exact Or.inr (List.mem_cons_of_mem _ h')

theorem key_mem_regSet (reg : List (Nat × Nat)) (k v x : Nat)
    (h : x ∈ keysOf (regSet reg k v)) : x = k ∨ x ∈ keysOf reg := by
  induction reg with
  | nil =>
    simp [regSet, keysOf] at h
    exact Or.inl h
  | cons e rest ih =>
    obtain ⟨c, b⟩ := e
    by_cases hc : c = k
    · rw [regSet, if_pos hc, keysOf_cons] at h
      rw [keysOf_cons]
      rcases List.mem_cons.mp h with h | h
      · exact Or.inl h
      · exact Or.inr (List.mem_cons_of_mem _ h)
    · rw [regSet, if_neg hc, keysOf_cons] at h
      rw [keysOf_cons]
      rcases List.mem_cons.mp h with h | h
      · exact Or.inr (h ▸ List.mem_cons_self _ _)
      · rcases ih h with h' | h'
        · exact Or.inl h'
        · exact Or.inr (List.mem_cons_of_mem _ h')

theorem nodup_pids_regSet (reg : List (Nat × Nat)) (k L : Nat)
    (hb : ∀ p ∈ pidsOf reg, p < L) (hn : (pidsOf reg).Nodup) :
    (pidsOf (regSet reg k L)).Nodup := by
  induction reg with
  | nil => simp [regSet, pidsOf]
  | cons e rest ih =>
    obtain ⟨c, b⟩ := e
    rw [pidsOf_cons] at hb hn
    rcases List.nodup_cons.mp hn with ⟨hnb, hnrest⟩
    by_cases hc : c = k
    · rw [regSet, if_pos hc, pidsOf_cons, List.nodup_cons]
      refine ⟨fun hmem => ?_, hnrest⟩
      have := hb L (List.mem_cons_of_mem _ hmem)
      omega
    · rw [regSet, if_neg hc, pidsOf_cons, List.nodup_cons]
      constructor
      · intro hmem
        rcases pid_mem_regSet rest k L b hmem with h' | h'
        · have := hb b (List.mem_cons_self _ _)
          omega
        · exact hnb h'
      · exact ih (fun p hp => hb p (List.mem_cons_of_mem _ hp)) hnrest

theorem pids_regSet_lt (reg : List (Nat × Nat)) (k L : Nat)
    (hb : ∀ p ∈ pidsOf reg, p < L) :
    ∀ p ∈ pidsOf (regSet reg k L), p < L + 1 := by
  intro p hp
  rcases pid_mem_regSet reg k L p hp with h | h
  · omega
  · have := hb p h
    omega

theorem nodup_keys_regSet (reg : List (Nat × Nat)) (k v : Nat)
    (hn : (keysOf reg).Nodup) : (keysOf (regSet reg k v)).Nodup := by
  induction reg with
  | nil => simp [regSet, keysOf]
  | cons e rest ih =>
    obtain ⟨c, b⟩ := e
    rw [keysOf_cons] at hn
    rcases List.nodup_cons.mp hn with ⟨hnc, hnrest⟩
    by_cases hc : c = k
    · subst hc
      rw [regSet, if_pos rfl, keysOf_cons, List.nodup_cons]
      exact ⟨hnc, hnrest⟩
    · rw [regSet, if_neg hc, keysOf_cons, List.nodup_cons]
      constructor
      · intro hmem
        rcases key_mem_regSet rest k v c hmem with h' | h'
        · exact hc h'
        · exact hnc h'
      · exact ih hnrest

/-! ### Lemmas about the process table -/

theorem length_setDead (l : List Proc) (n : Nat) : (setDead l n).length = l.length := by
  induction l generalizing n with
  | nil => rfl
  | cons p ps ih =>
    cases n with
    | zero => simp [setDead]
    | succ n => simp [setDead, ih]

theorem get?_setDead_ne (l : List Proc) (n m : Nat) (h : m ≠ n) :
    (setDead l n).get? m = l.get? m := by
  induction l generalizing n m with
  | nil => rfl
  | cons p ps ih =>
    cases n with
    | zero =>
      cases m with
      | zero => exact absurd rfl h
      | succ m => rfl
    | succ n =>
      cases m with
      | zero => rfl
      | succ m =>
        rw [setDead]
        exact ih n m (by omega)

theorem get?_setDead_self (l : List Proc) (n : Nat) :
    (setDead l n).get? n = (l.get? n).map (fun p => { p with alive := false }) := by
  induction l generalizing n with
  | nil => rfl
  | cons p ps ih =>
    cases n with
    | zero => rfl
    | succ n =>
      rw [setDead]
      exact ih n

/-! ### Lemmas about `killPrior` and `start_ffmpeg_process` -/

theorem killPrior_eq_some_live (cam q : Nat) (s : SupState)
    (hq : alistGet s.reg cam = some q) (hl : pollLive s q = true) :
    killPrior cam s = { s with procs := setDead s.procs q } := by
  unfold killPrior
  rw [hq]
  show (if pollLive s q then { s with procs := setDead s.procs q } else s) = _
  rw [if_pos hl]

theorem killPrior_eq_some_dead (cam q : Nat) (s : SupState)
    (hq : alistGet s.reg cam = some q) (hl : pollLive s q = false) :
    killPrior cam s = s := by
  unfold killPrior
  rw [hq]
  show (if pollLive s q then { s with procs := setDead s.procs q } else s) = _
  rw [if_neg (by simp [hl])]

theorem killPrior_eq_none (cam : Nat) (s : SupState)
    (hq : alistGet s.reg cam = none) : killPrior cam s = s := by
  unfold killPrior
  rw [hq]

theorem killPrior_reg (cam : Nat) (s : SupState) : (killPrior cam s).reg = s.reg := by
  unfold killPrior
  cases alistGet s.reg cam with
  | none => rfl
  | some pid => by_cases h : pollLive s pid <;> simp [h]

theorem killPrior_fs (cam : Nat) (s : SupState) : (killPrior cam s).fs = s.fs := by
  unfold killPrior
  cases alistGet s.reg cam with
  | none => rfl
  | some pid => by_cases h : pollLive s pid <;> simp [h]

theorem killPrior_length (cam : Nat) (s : SupState) :
    (killPrior cam s).procs.length = s.procs.length := by
  unfold killPrior
  cases alistGet s.reg cam with
  | none => rfl
  | some pid => by_cases h : pollLive s pid <;> simp [h, length_setDead]

theorem killPrior_get?_ne (cam : Nat) (s : SupState) (m : Nat)
    (h : ∀ q, alistGet s.reg cam = some q → m ≠ q) :
    (killPrior cam s).procs.get? m = s.procs.get? m := by
  unfold killPrior
  cases hq : alistGet s.reg cam with
  | none => rfl
  | some q =>
    show (if pollLive s q then { s with procs := setDead s.procs q } else s).procs.get? m =
      s.procs.get? m
    by_cases hl : pollLive s q
    · rw [if_pos hl]
      exact get?_setDead_ne s.procs q m (h q hq)
    · rw [if_neg hl]

theorem launch_fs (cam : Nat) (s : SupState) :
    (start_ffmpeg_process cam s).fs = s.fs := by
  unfold start_ffmpeg_process
  simp [killPrior_fs]

theorem launch_procs (cam : Nat) (s : SupState) :
    (start_ffmpeg_process cam s).procs = (killPrior cam s).procs ++ [⟨cam, true⟩] := rfl

theorem launch_reg (cam : Nat) (s : SupState) :
    (start_ffmpeg_process cam s).reg = regSet s.reg cam s.procs.length := by
  unfold start_ffmpeg_process
  simp [killPrior_reg, killPrior_length]

theorem launch_length (cam : Nat) (s : SupState) :
    (start_ffmpeg_process cam s).procs.length = s.procs.length + 1 := by
  rw [launch_procs, List.length_append, killPrior_length]
  rfl

theorem launch_reg_self (cam : Nat) (s : SupState) :
    alistGet (start_ffmpeg_process cam s).reg cam = some s.procs.length := by
  rw [launch_reg]
  exact alistGet_regSet_self s.reg cam s.procs.length

theorem launch_reg_ne (cam j : Nat) (s : SupState) (h : j ≠ cam) :
    alistGet (start_ffmpeg_process cam s).reg j = alistGet s.reg j := by
  rw [launch_reg]
  exact alistGet_regSet_ne s.reg cam s.procs.length j h

theorem wfB_nodup (s : SupState) (h : wfB s = true) : (pidsOf s.reg).Nodup := by
  rw [wfB, Bool.and_eq_true, decide_eq_true_eq] at h
  exact h.1

theorem wfB_lt (s : SupState) (h : wfB s = true) :
    ∀ e ∈ s.reg, e.2 < s.procs.length := by
  rw [wfB, Bool.and_eq_true, List.all_eq_true] at h
  intro e he
  have := h.2 e he
  simpa using this

theorem pidsOf_lt (s : SupState) (h : wfB s = true) :
    ∀ p ∈ pidsOf s.reg, p < s.procs.length := by
  intro p hp
  rw [pidsOf, List.mem_map] at hp
  obtain ⟨e, he, rfl⟩ := hp
  exact wfB_lt s h e he

theorem reg_pid_ne (s : SupState) (cam j pid q : Nat) (hwf : wfB s = true)
    (hne : j ≠ cam) (hj : alistGet s.reg j = some pid)
    (hq : alistGet s.reg cam = some q) : pid ≠ q := by
  intro heq
  subst heq
  have hmj := mem_of_alistGet s.reg j pid hj
  have hmc := mem_of_alistGet s.reg cam pid hq
  have := List.inj_on_of_nodup_map (wfB_nodup s hwf) hmj hmc rfl
  exact hne (congrArg Prod.fst this)

theorem launch_pollLive_ne (cam j pid : Nat) (s : SupState) (hwf : wfB s = true)
    (hne : j ≠ cam) (hj : alistGet s.reg j = some pid) :
    pollLive (start_ffmpeg_process cam s) pid = pollLive s pid := by
  have hlt : pid < s.procs.length := wfB_lt s hwf _ (mem_of_alistGet s.reg j pid hj)
  have hlt' : pid < (killPrior cam s).procs.length := by
    rw [killPrior_length]
    exact hlt
  unfold pollLive
  rw [launch_procs, List.get?_append hlt',
    killPrior_get?_ne cam s pid (fun q hq => reg_pid_ne s cam j pid q hwf hne hj hq)]

theorem launch_wf (cam : Nat) (s : SupState) (hwf : wfB s = true) :
    wfB (start_ffmpeg_process cam s) = true := by
  rw [wfB, Bool.and_eq_true, decide_eq_true_eq, List.all_eq_true]
  constructor
  · rw [launch_reg]
    exact nodup_pids_regSet s.reg cam s.procs.length (pidsOf_lt s hwf) (wfB_nodup s hwf)
  · intro e he
    rw [launch_reg] at he
    have : e.2 ∈ pidsOf (regSet s.reg cam s.procs.length) :=
      List.mem_map.mpr ⟨e, he, rfl⟩
    have := pids_regSet_lt s.reg cam s.procs.length (pidsOf_lt s hwf) e.2 this
    rw [launch_length]
    simpa using this

theorem launch_check_frame (cam j : Nat) (now : Int) (s : SupState)
    (hwf : wfB s = true) (hne : j ≠ cam) :
    monitorCheck (start_ffmpeg_process cam s) now j = monitorCheck s now j := by
  unfold monitorCheck
  have hdied : procDied (start_ffmpeg_process cam s) j = procDied s j := by
    unfold procDied
    rw [launch_reg_ne cam j s hne]
    cases hj : alistGet s.reg j with
    | none => rfl
    | some pid =>
      show (!pollLive (start_ffmpeg_process cam s) pid) = (!pollLive s pid)
      rw [launch_pollLive_ne cam j pid s hwf hne hj]
  have hstale : isStale (start_ffmpeg_process cam s) now j = isStale s now j := by
    unfold isStale playlistMtime
    rw [launch_fs]
  rw [hdied, hstale]

/-! ### The restart log of one monitor tick -/

theorem monitorTickAux_log (now : Int) (l : List Nat) (s : SupState)
    (hwf : wfB s = true) (hl : l.Nodup) :
    (monitorTickAux now l s).2 = l.filter (fun cam => monitorCheck s now cam) := by
  induction l generalizing s with
  | nil => rfl
  | cons cam rest ih =>
    rcases List.nodup_cons.mp hl with ⟨hcam, hrest⟩
    by_cases hc : monitorCheck s now cam
    · rw [monitorTickAux, if_pos hc, List.filter_cons_of_pos hc]
      show cam :: (monitorTickAux now rest (start_ffmpeg_process cam s)).2 = _
      rw [ih (start_ffmpeg_process cam s) (launch_wf cam s hwf) hrest]
      congr 1
      apply List.filter_congr
      intro c hcmem
      exact launch_check_frame cam c now s hwf (fun h => hcam (h ▸ hcmem))
    · rw [monitorTickAux, if_neg hc,
        List.filter_cons_of_neg (by simpa using hc)]
      exact ih s hwf hrest

theorem camsList_nodup (n : Nat) : (camsList n).Nodup :=
  (List.nodup_range n).map (fun a b h => by omega)

theorem mem_camsList (n cam : Nat) : cam ∈ camsList n ↔ 1 ≤ cam ∧ cam ≤ n := by
  simp only [camsList, List.mem_map, List.mem_range]
  constructor
  · rintro ⟨a, ha, rfl⟩
    omega
  · intro h
    exact ⟨cam - 1, by omega, by omega⟩

theorem tick_count (now : Int) (n cam : Nat) (s : SupState) (hwf : wfB s = true)
    (h1 : 1 ≤ cam) (h2 : cam ≤ n) :
    (monitorTick now n s).2.count cam = if monitorCheck s now cam then 1 else 0 := by
  unfold monitorTick
  rw [monitorTickAux_log now (camsList n) s hwf (camsList_nodup n)]
  by_cases hc : monitorCheck s now cam
  · rw [if_pos hc, List.count_filter (by simpa using hc)]
    exact List.count_eq_one_of_mem (camsList_nodup n) ((mem_camsList n cam).mpr ⟨h1, h2⟩)
  · rw [if_neg hc]
    apply List.count_eq_zero_of_not_mem
    intro hmem
    exact hc (by simpa using List.of_mem_filter hmem)

/-! ### Registry/process-table coherence: at most one live subprocess per feed -/

theorem get?_lt_length {α : Type} (l : List α) (n : Nat) (a : α)
    (h : l.get? n = some a) : n < l.length := by
  by_contra hn
  rw [List.get?_eq_none.mpr (by omega)] at h
  exact Option.noConfusion h

theorem coh_of_cohB (s : SupState) (h : cohB s = true) : Coh s := by
  rw [cohB, List.all_eq_true] at h
  intro pid p hget halive
  have hlt : pid < s.procs.length := get?_lt_length s.procs pid p hget
  have h2 := h pid (List.mem_range.mpr hlt)
  rw [hget] at h2
  show alistGet s.reg p.owner = some pid
  simpa [halive] using h2

theorem cohB_of_coh (s : SupState) (h : Coh s) : cohB s = true := by
  rw [cohB, List.all_eq_true]
  intro pid _
  cases hget : s.procs.get? pid with
  | none => rfl
  | some p =>
    show (!p.alive || decide (alistGet s.reg p.owner = some pid)) = true
    cases halive : p.alive with
    | false => rfl
    | true => simp [h pid p hget halive]

theorem nodup_all_eq_length_le_one (l : List Nat) (a : Nat) (hn : l.Nodup)
    (h : ∀ x ∈ l, x = a) : l.length ≤ 1 := by
  cases l with
  | nil => simp
  | cons x rest =>
    cases rest with
    | nil => simp
    | cons y rest2 =>
      exfalso
      have hx := h x (List.mem_cons_self _ _)
      have hy := h y (List.mem_cons_of_mem _ (List.mem_cons_self _ _))
      rcases List.nodup_cons.mp hn with ⟨hnx, _⟩
      exact hnx ((hx.trans hy.symm) ▸ List.mem_cons_self y rest2)

theorem livePids_sound (s : SupState) (cam pid : Nat) (h : pid ∈ livePids s cam) :
    ∃ p, s.procs.get? pid = some p ∧ p.owner = cam ∧ p.alive = true := by
  have hp := List.of_mem_filter h
  cases hget : s.procs.get? pid with
  | none =>
    rw [hget] at hp
    simp at hp
  | some p =>
    rw [hget] at hp
    have h1 : p.owner = cam ∧ p.alive = true := by simpa using hp
    exact ⟨p, rfl, h1.1, h1.2⟩

theorem liveCount_le_one (s : SupState) (cam : Nat) (h : Coh s) :
    liveCount s cam ≤ 1 := by
  unfold liveCount
  apply nodup_all_eq_length_le_one (livePids s cam)
    ((alistGet s.reg cam).getD 0)
  · exact ((List.nodup_range s.procs.length).filter _)
  · intro pid hpid
    obtain ⟨p, hget, howner, halive⟩ := livePids_sound s cam pid hpid
    have := h pid p hget halive
    rw [howner] at this
    rw [this]
    rfl

theorem coh_launch (cam : Nat) (s : SupState) (h : Coh s) :
    Coh (start_ffmpeg_process cam s) := by
  intro pid p hget halive
  rw [launch_procs] at hget
  rw [launch_reg]
  have hklen : (killPrior cam s).procs.length = s.procs.length := killPrior_length cam s
  rcases Nat.lt_trichotomy pid s.procs.length with hlt | heq | hgt
  · -- an old process: it must be the (unkilled) registered one for its owner
    rw [List.get?_append (by omega)] at hget
    cases hq : alistGet s.reg cam with
    | some q =>
      by_cases hl : pollLive s q
      · rw [killPrior_eq_some_live cam q s hq hl] at hget
        by_cases hpq : pid = q
        · subst hpq
          rw [show ({ s with procs := setDead s.procs pid } : SupState).procs =
              setDead s.procs pid from rfl, get?_setDead_self] at hget
          cases hsp : s.procs.get? pid with
          | none =>
            rw [hsp] at hget
            exact Option.noConfusion hget
          | some p0 =>
            rw [hsp] at hget
            simp at hget
            rw [← hget] at halive
            exact absurd halive (by simp)
        · rw [show ({ s with procs := setDead s.procs q } : SupState).procs =
              setDead s.procs q from rfl, get?_setDead_ne s.procs q pid hpq] at hget
          have hreg := h pid p hget halive
          by_cases howner : p.owner = cam
          · rw [howner] at hreg
            rw [hreg] at hq
            exact absurd (Option.some.inj hq) hpq
          · rw [alistGet_regSet_ne s.reg cam s.procs.length p.owner howner]
            exact h pid p hget halive
      · rw [killPrior_eq_some_dead cam q s hq (by simpa using hl)] at hget
        have hreg := h pid p hget halive
        by_cases howner : p.owner = cam
        · exfalso
          rw [howner] at hreg
          rw [hreg] at hq
          have : pid = q := Option.some.inj hq
          subst this
          unfold pollLive at hl
          rw [hget] at hl
          simp [halive] at hl
        · rw [alistGet_regSet_ne s.reg cam s.procs.length p.owner howner]
          exact hreg
    | none =>
      rw [killPrior_eq_none cam s hq] at hget
      have hreg := h pid p hget halive
      by_cases howner : p.owner = cam
      · rw [howner] at hreg
        rw [hreg] at hq
        exact Option.noConfusion hq
      · rw [alistGet_regSet_ne s.reg cam s.procs.length p.owner howner]
        exact hreg
  · -- the freshly spawned process
    subst heq
    rw [show s.procs.length = (killPrior cam s).procs.length from hklen.symm,
      List.get?_concat_length] at hget
    have hp : p = ⟨cam, true⟩ := (Option.some.inj hget).symm
    subst hp
    exact alistGet_regSet_self s.reg cam s.procs.length
  · -- beyond the table: impossible
    exfalso
    rw [List.get?_append_right (by omega)] at hget
    cases hd : pid - (killPrior cam s).procs.length with
    | zero => omega
    | succ k =>
      rw [hd] at hget
      exact Option.noConfusion hget

theorem launch_kills_old (s : SupState) (cam oldPid : Nat)
    (hold : alistGet s.reg cam = some oldPid) (hlive : pollLive s oldPid = true) :
    pollLive (start_ffmpeg_process cam s) oldPid = false := by
  have hlt : oldPid < s.procs.length := by
    unfold pollLive at hlive
    cases hget : s.procs.get? oldPid with
    | none =>
      rw [hget] at hlive
      exact absurd hlive (by simp)
    | some p => exact get?_lt_length s.procs oldPid p hget
  have hkp : (killPrior cam s).procs = setDead s.procs oldPid := by
    rw [killPrior_eq_some_live cam oldPid s hold hlive]
  unfold pollLive
  rw [launch_procs, List.get?_append (by rw [hkp, length_setDead]; omega), hkp,
    get?_setDead_self]
  cases hget : s.procs.get? oldPid with
  | none => rfl
  | some p => rfl

/-! ### Remaining support lemmas -/

theorem isStale_some (s : SupState) (now mt : Int) (cam : Nat)
    (h : playlistMtime s cam = some mt) :
    isStale s now cam = decide (now - mt > STALE_THRESHOLD_SECONDS) := by
  unfold isStale
  rw [h]

theorem isStale_none (s : SupState) (now : Int) (cam : Nat)
    (h : playlistMtime s cam = none) : isStale s now cam = false := by
  unfold isStale
  rw [h]

theorem keysWfB_nodup (s : SupState) (n : Nat) (h : keysWfB s n = true) :
    (keysOf s.reg).Nodup := by
  rw [keysWfB, Bool.and_eq_true, decide_eq_true_eq] at h
  exact h.1

theorem keysWfB_range (s : SupState) (n : Nat) (h : keysWfB s n = true) :
    ∀ e ∈ s.reg, 1 ≤ e.1 ∧ e.1 ≤ n := by
  rw [keysWfB, Bool.and_eq_true, List.all_eq_true] at h
  intro e he
  have := h.2 e he
  simpa using this

theorem reg_length_le (s : SupState) (n : Nat) (h : keysWfB s n = true) :
    s.reg.length ≤ n := by
  have h1 : (keysOf s.reg).length ≤ (camsList n).length := by
    apply (List.subperm_of_subset (keysWfB_nodup s n h) ?_).length_le
    intro k hk
    rw [keysOf, List.mem_map] at hk
    obtain ⟨e, he, rfl⟩ := hk
    exact (mem_camsList n e.1).mpr (keysWfB_range s n h e he)
  rw [keysOf, List.length_map] at h1
  simpa [camsList] using h1

theorem launchAll_fs (l : List Nat) (s : SupState) : (launchAll l s).fs = s.fs := by
  induction l generalizing s with
  | nil => rfl
  | cons cam rest ih => rw [launchAll, ih, launch_fs]

theorem resetDirs_empty (n c : Nat) (d : FeedDir)
    (h : alistGet (resetDirs n) c = some d) : d = [] := by
  have hm := mem_of_alistGet (resetDirs n) c d h
  rw [resetDirs, List.mem_map] at hm
  obtain ⟨i, _, he⟩ := hm
  exact (congrArg Prod.snd he).symm

/-! ### The claims -/

/-- C1: at most one live subprocess handle exists per feed at any instant.
Launching a feed whose registry entry holds a still-live handle first kills
that process and waits for it — the old handle reports exited afterwards —
and registry/process-table coherence is preserved, so after a launch, and
after two launches in rapid succession, at most one live subprocess exists
for every feed. -/
theorem launch_single_live_handle (s : SupState) (cam c oldPid : Nat)
    (hcoh : cohB s = true) (hold : alistGet s.reg cam = some oldPid)
    (hlive : pollLive s oldPid = true) :
    pollLive (start_ffmpeg_process cam s) oldPid = false ∧
    cohB (start_ffmpeg_process cam s) = true ∧
    liveCount (start_ffmpeg_process cam s) c ≤ 1 ∧
    liveCount (start_ffmpeg_process cam (start_ffmpeg_process cam s)) c ≤ 1 := by
  have h := coh_of_cohB s hcoh
  have h1 := coh_launch cam s h
  have h2 := coh_launch cam _ h1
  exact ⟨launch_kills_old s cam oldPid hold hlive, cohB_of_coh _ h1,
    liveCount_le_one _ c h1, liveCount_le_one _ c h2⟩

theorem launch_single_live_handle_witness :
    pollLive (start_ffmpeg_process 1 ⟨[⟨1, true⟩], [(1, 0)], []⟩) 0 = false ∧
    cohB (start_ffmpeg_process 1 ⟨[⟨1, true⟩], [(1, 0)], []⟩) = true ∧
    liveCount (start_ffmpeg_process 1 ⟨[⟨1, true⟩], [(1, 0)], []⟩) 1 ≤ 1 ∧
    liveCount (start_ffmpeg_process 1
      (start_ffmpeg_process 1 ⟨[⟨1, true⟩], [(1, 0)], []⟩)) 1 ≤ 1 :=
  launch_single_live_handle ⟨[⟨1, true⟩], [(1, 0)], []⟩ 1 1 0
    (by decide) (by decide) (by decide)

/-- C2: a feed is classified STALE exactly when its playlist file exists and
`now - mtime` strictly exceeds the 30-second threshold: with
`mtime = now - (threshold + 1)` the next tick triggers exactly one restart for
the feed, with `mtime = now - (threshold - 1)` (and a handle that has not
died) it triggers none, and a feed with no playlist file is never stale. -/
theorem stale_classification (s : SupState) (n cam : Nat) (now : Int)
    (hwf : wfB s = true) (h1 : 1 ≤ cam) (h2 : cam ≤ n) :
    (playlistMtime s cam = some (now - (STALE_THRESHOLD_SECONDS + 1)) →
      (monitorTick now n s).2.count cam = 1) ∧
    (playlistMtime s cam = some (now - (STALE_THRESHOLD_SECONDS - 1)) →
      procDied s cam = false → (monitorTick now n s).2.count cam = 0) ∧
    (playlistMtime s cam = none → isStale s now cam = false) := by
  refine ⟨fun hm => ?_, fun hm hd => ?_, fun hm => isStale_none s now cam hm⟩
  · have harg : now - (now - (STALE_THRESHOLD_SECONDS + 1)) > STALE_THRESHOLD_SECONDS := by
      show now - (now - (30 + 1)) > 30
      omega
    have hcheck : monitorCheck s now cam = true := by
      rw [monitorCheck, isStale_some s now _ cam hm, decide_eq_true harg, Bool.or_true]
    rw [tick_count now n cam s hwf h1 h2, if_pos hcheck]
  · have harg : ¬(now - (now - (STALE_THRESHOLD_SECONDS - 1)) > STALE_THRESHOLD_SECONDS) := by
      show ¬(now - (now - (30 - 1)) > 30)
      omega
    have hcheck : monitorCheck s now cam = false := by
      rw [monitorCheck, isStale_some s now _ cam hm, decide_eq_false harg, hd, Bool.or_false]
    rw [tick_count now n cam s hwf h1 h2, if_neg (by simp [hcheck])]

theorem stale_classification_witness :
    (monitorTick 100 1 ⟨[], [], [(1, [("stream.m3u8", 69)])]⟩).2.count 1 = 1 ∧
    (monitorTick 100 1 ⟨[], [], [(1, [("stream.m3u8", 71)])]⟩).2.count 1 = 0 ∧
    isStale ⟨[], [], []⟩ 100 1 = false :=
  ⟨(stale_classification ⟨[], [], [(1, [("stream.m3u8", 69)])]⟩ 1 1 100
      (by decide) (by decide) (by decide)).1 (by decide),
   (stale_classification ⟨[], [], [(1, [("stream.m3u8", 71)])]⟩ 1 1 100
      (by decide) (by decide) (by decide)).2.1 (by decide) (by decide),
   (stale_classification ⟨[], [], []⟩ 1 1 100
      (by decide) (by decide) (by decide)).2.2 (by decide)⟩

/-- C3: a feed whose registered handle reports an exit status is restarted on
the next tick — no freshness hypothesis on its playlist is needed — and a
feed that is neither dead nor stale is not restarted that tick. -/
theorem dead_handle_restarts (s : SupState) (n cam : Nat) (now : Int)
    (hwf : wfB s = true) (h1 : 1 ≤ cam) (h2 : cam ≤ n) :
    (procDied s cam = true → (monitorTick now n s).2.count cam = 1) ∧
    (procDied s cam = false → isStale s now cam = false →
      (monitorTick now n s).2.count cam = 0) := by
  constructor
  · intro hd
    rw [tick_count now n cam s hwf h1 h2,
      if_pos (by rw [monitorCheck, hd, Bool.true_or])]
  · intro hd hs
    rw [tick_count now n cam s hwf h1 h2,
      if_neg (by rw [monitorCheck, hd, hs]; simp)]

theorem dead_handle_restarts_witness :
    (monitorTick 100 1 ⟨[⟨1, false⟩], [(1, 0)], [(1, [("stream.m3u8", 100)])]⟩).2.count 1 = 1 ∧
    (monitorTick 100 1 ⟨[⟨1, true⟩], [(1, 0)], []⟩).2.count 1 = 0 :=
  ⟨(dead_handle_restarts ⟨[⟨1, false⟩], [(1, 0)], [(1, [("stream.m3u8", 100)])]⟩ 1 1 100
      (by decide) (by decide) (by decide)).1 (by decide),
   (dead_handle_restarts ⟨[⟨1, true⟩], [(1, 0)], []⟩ 1 1 100
      (by decide) (by decide) (by decide)).2 (by decide) (by decide)⟩

/-- C4 counterexample: `start_ffmpeg_process` does not reset the feed's output
directory — launching camera 1 while its directory still holds the previously
produced playlist and a segment file leaves both files exactly in place. -/
theorem launch_does_not_reset_dir :
    (start_ffmpeg_process 1
      ⟨[⟨1, true⟩], [(1, 0)], [(1, [("stream.m3u8", 0), ("segment-1.ts", 0)])]⟩).fs =
      [(1, [("stream.m3u8", 0), ("segment-1.ts", 0)])] ∧
    alistGet (start_ffmpeg_process 1
      ⟨[⟨1, true⟩], [(1, 0)], [(1, [("stream.m3u8", 0), ("segment-1.ts", 0)])]⟩).fs 1 =
      some [("stream.m3u8", 0), ("segment-1.ts", 0)] :=
  ⟨rfl, rfl⟩

/-- C4 amended: the output directories are reset only once, at startup:
`startup_event` discards whatever was on disk and creates one empty directory
per feed before launching, so after the startup launches every feed directory
recorded in the state is empty; an individual `start_ffmpeg_process`
invocation (initial or restart) leaves the filesystem untouched. -/
theorem reset_only_at_startup (n cam c : Nat) (fs0 : List (Nat × FeedDir))
    (d : FeedDir) (s t : SupState)
    (h : startup_event true n fs0 = Except.ok t)
    (hc : alistGet t.fs c = some d) :
    d = [] ∧ (start_ffmpeg_process cam s).fs = s.fs := by
  refine ⟨?_, launch_fs cam s⟩
  have ht : launchAll (camsList n) ⟨[], [], resetDirs n⟩ = t := Except.ok.inj h
  rw [← ht, launchAll_fs] at hc
  exact resetDirs_empty n c d hc

theorem reset_only_at_startup_witness :
    ([] : FeedDir) = [] ∧
    (start_ffmpeg_process 1 ⟨[], [], [(1, [("old.ts", 3)])]⟩).fs =
      (⟨[], [], [(1, [("old.ts", 3)])]⟩ : SupState).fs :=
  reset_only_at_startup 1 1 1 [(1, [("old.ts", 3)])] []
    ⟨[], [], [(1, [("old.ts", 3)])]⟩ ⟨[⟨1, true⟩], [(1, 0)], [(1, [])]⟩
    rfl (by decide)

/-- C5: the wait for the prior subprocess (`Popen.wait()` at main.py line 30)
is unbounded: a killed process that never fully exits blocks the caller — and
hence the Health Monitor — forever, and no uniform bound on the blocking time
exists.  The claimed grace period and escalation are absent from the code. -/
theorem kill_wait_unbounded :
    killWaitBlocking none = none ∧
    ¬ ∃ B : Nat, ∀ d : Option Nat, ∃ t : Nat, killWaitBlocking d = some t ∧ t ≤ B := by
  refine ⟨rfl, ?_⟩
  rintro ⟨B, hB⟩
  obtain ⟨t, ht, _⟩ := hB none
  exact Option.noConfusion ht

/-- C6: when `subprocess.Popen` raises while the monitor restarts camera 1,
the exception propagates out of `monitor_ffmpeg_processes` (the loop body has
no try/except): the tick aborts with the error, camera 2 is never checked,
and the monitor thread dies — the feed is not retried on a next tick,
contradicting the claim that a launch failure is non-fatal and retried. -/
theorem spawn_failure_kills_monitor :
    monitorTickE (fun _ => false) 100 2
      ⟨[⟨1, false⟩, ⟨2, true⟩], [(1, 0), (2, 1)], []⟩ =
      Except.error "Popen raised" := rfl

/-- C7: the health snapshot reports the configured total together with
`active_streams`, computed as the number of registry entries whose handle is
currently live; the count is a natural number (never negative) and never
exceeds the configured total for any registry whose keys are distinct
configured camera ids — which covers every state a restart passes through. -/
theorem health_check_bounds (s : SupState) (n : Nat) (h : keysWfB s n = true) :
    (health_check s n).total_streams = n ∧
    (health_check s n).active_streams =
      (s.reg.filter (fun e => pollLive s e.2)).length ∧
    (health_check s n).active_streams ≤ n := by
  refine ⟨rfl, rfl, ?_⟩
  calc (health_check s n).active_streams
      ≤ s.reg.length := List.length_filter_le _ _
    _ ≤ n := reg_length_le s n h

theorem health_check_bounds_witness :
    (health_check ⟨[⟨1, true⟩, ⟨2, false⟩], [(1, 0), (2, 1)], []⟩ 2).total_streams = 2 ∧
    (health_check ⟨[⟨1, true⟩, ⟨2, false⟩], [(1, 0), (2, 1)], []⟩ 2).active_streams =
      (([(1, 0), (2, 1)] : List (Nat × Nat)).filter
        (fun e => pollLive ⟨[⟨1, true⟩, ⟨2, false⟩], [(1, 0), (2, 1)], []⟩ e.2)).length ∧
    (health_check ⟨[⟨1, true⟩, ⟨2, false⟩], [(1, 0), (2, 1)], []⟩ 2).active_streams ≤ 2 :=
  health_check_bounds ⟨[⟨1, true⟩, ⟨2, false⟩], [(1, 0), (2, 1)], []⟩ 2 (by decide)

/-- C8: if ffmpeg is absent at startup, `startup_event` propagates the
`RuntimeError` from `check_ffmpeg` and the system refuses to start; if it is
present, startup proceeds normally. -/
theorem startup_requires_ffmpeg (n : Nat) (fs0 : List (Nat × FeedDir)) :
    startup_event false n fs0 = Except.error "FFmpeg not found" ∧
    (startup_event true n fs0).isOk = true :=
  ⟨rfl, rfl⟩

/-- C9: launching feed `cam` leaves every other feed's registry entry exactly
as it was: the registered handle is the same, its liveness is unchanged, and
the filesystem is untouched. -/
theorem launch_frame_other_feeds (s : SupState) (cam j pid : Nat)
    (hwf : wfB s = true) (hne : j ≠ cam) (hj : alistGet s.reg j = some pid) :
    alistGet (start_ffmpeg_process cam s).reg j = some pid ∧
    pollLive (start_ffmpeg_process cam s) pid = pollLive s pid ∧
    (start_ffmpeg_process cam s).fs = s.fs :=
  ⟨(launch_reg_ne cam j s hne).trans hj, launch_pollLive_ne cam j pid s hwf hne hj,
    launch_fs cam s⟩

theorem launch_frame_other_feeds_witness :
    alistGet (start_ffmpeg_process 1 ⟨[⟨1, true⟩, ⟨2, true⟩], [(1, 0), (2, 1)], []⟩).reg 2 =
      some 1 ∧
    pollLive (start_ffmpeg_process 1 ⟨[⟨1, true⟩, ⟨2, true⟩], [(1, 0), (2, 1)], []⟩) 1 =
      pollLive ⟨[⟨1, true⟩, ⟨2, true⟩], [(1, 0), (2, 1)], []⟩ 1 ∧
    (start_ffmpeg_process 1 ⟨[⟨1, true⟩, ⟨2, true⟩], [(1, 0), (2, 1)], []⟩).fs =
      (⟨[⟨1, true⟩, ⟨2, true⟩], [(1, 0), (2, 1)], []⟩ : SupState).fs :=
  launch_frame_other_feeds ⟨[⟨1, true⟩, ⟨2, true⟩], [(1, 0), (2, 1)], []⟩ 1 2 1
    (by decide) (by decide) (by decide)

/-- C10: a configured feed with no registry entry at all is still restarted by
the monitor whenever a stale playlist file exists at its output path: the
staleness signal alone triggers the launcher. -/
theorem stale_without_handle_restarts (s : SupState) (n cam : Nat) (now : Int)
    (hwf : wfB s = true) (h1 : 1 ≤ cam) (h2 : cam ≤ n)
    (hnone : alistGet s.reg cam = none) (hstale : isStale s now cam = true) :
    (monitorTick now n s).2.count cam = 1 := by
  rw [tick_count now n cam s hwf h1 h2,
    if_pos (by rw [monitorCheck, hstale, Bool.or_true])]

theorem stale_without_handle_restarts_witness :
    (monitorTick 100 1 ⟨[], [], [(1, [("stream.m3u8", 0)])]⟩).2.count 1 = 1 :=
  stale_without_handle_restarts ⟨[], [], [(1, [("stream.m3u8", 0)])]⟩ 1 1 100
    (by decide) (by decide) (by decide) (by decide) (by decide)

end CameraViewer
